import Mathlib

/-!
Verification development for the p2p-share repository: a shallow embedding of
the signaling server (server/src, `part_000`), the file-transfer engine
(`FileTransferManager`, `part_002`) and the encryption manager
(`EncryptionManager`, `part_004`), together with theorems settling the frozen
claims about the specification.

Bytes are modelled as `List Nat` (each entry a value mod 256 where produced by
the code); machine integers are `Nat` with explicit `% 2 ^ w` at the points
where JavaScript `DataView` setters wrap.  The AES-GCM cipher itself lives in
the Web Crypto API, outside the repository: it is a parameter `E`/`D` of the
pipeline, with the standard round-trip property taken as a hypothesis exactly
where a claim is conditioned on "no decryption error".
-/

namespace P2PShare

/-! ## Big-endian byte rendering (DataView setters write big-endian, wrapping) -/

/-- Big-endian rendering of `n` into `w` bytes, wrapping mod `256 ^ w`
    (the behaviour of `DataView.setUint32`/`setBigUint64` with `false`). -/
def beBytes : Nat → Nat → List Nat
  | 0, _ => []
  | w + 1, n => beBytes w (n / 256) ++ [n % 256]

/-- Big-endian value of a byte list (the behaviour of `DataView.getUint32`). -/
def beVal (l : List Nat) : Nat := l.foldl (fun acc b => acc * 256 + b) 0

theorem beBytes_length (w n : Nat) : (beBytes w n).length = w := by
  induction w generalizing n with
  | zero => rfl
  | succ w ih => simp [beBytes, ih]

theorem beBytes_inj {w m n : Nat} (hm : m < 256 ^ w) (hn : n < 256 ^ w)
    (h : beBytes w m = beBytes w n) : m = n := by
  induction w generalizing m n with
  | zero =>
    simp [Nat.pow_zero, Nat.lt_one_iff] at hm hn
    omega
  | succ w ih =>
    simp only [beBytes] at h
    have hlen : (beBytes w (m / 256)).length = (beBytes w (n / 256)).length := by
      simp [beBytes_length]
    obtain ⟨h1, h2⟩ := List.append_inj h hlen
    have hm' : m / 256 < 256 ^ w := by
      rw [Nat.div_lt_iff_lt_mul (by norm_num)]
      calc m < 256 ^ (w + 1) := hm
        _ = 256 ^ w * 256 := by ring
    have hn' : n / 256 < 256 ^ w := by
      rw [Nat.div_lt_iff_lt_mul (by norm_num)]
      calc n < 256 ^ (w + 1) := hn
        _ = 256 ^ w * 256 := by ring
    have hdiv : m / 256 = n / 256 := ih hm' hn' h1
    have hmod : m % 256 = n % 256 := by simpa using h2
    omega

/-! ## EncryptionManager (`part_004`)

`sessionId` is the 4 random bytes drawn at construction; `counter` is the
BigInt counter.  The cipher proper (`crypto.subtle.encrypt`/`decrypt`) is a
parameter: `E key iv plain` is the ciphertext-with-tag, `D key iv ct` is
`some plain` on success and `none` on a tag failure. -/

def IV_LENGTH : Nat := 12

def SESSION_ID_LENGTH : Nat := 4

structure EncryptionManager where
  key : Option (List Nat)
  sessionId : List Nat
  counter : Nat
  deriving DecidableEq, Repr

/-- A fresh manager: the constructor draws `sessionId` from the CSPRNG
    (modelled as an oracle argument) and starts the counter at 0; no key yet. -/
def EncryptionManager.mk0 (sid : List Nat) : EncryptionManager :=
  { key := none, sessionId := sid, counter := 0 }

/-- Model of `generateKey`: generates a key (CSPRNG oracle argument), stores it,
    returns its raw export. -/
def EncryptionManager.generateKey (m : EncryptionManager) (k : List Nat) :
    List Nat × EncryptionManager :=
  (k, { m with key := some k })

/-- Model of `importKey`: stores the received raw key. -/
def EncryptionManager.importKey (m : EncryptionManager) (k : List Nat) :
    EncryptionManager :=
  { m with key := some k }

/-- Model of `generateIV`: the 12-byte IV is the 4-byte session id followed by the
    counter as a big-endian `uint64` (`setBigUint64` wraps mod `2 ^ 64`);
    the counter is incremented after use. -/
def EncryptionManager.generateIV (m : EncryptionManager) :
    List Nat × EncryptionManager :=
  (m.sessionId ++ beBytes 8 m.counter, { m with counter := m.counter + 1 })

/-- Model of `encryptChunk`: fails (throws) when no key is initialized; otherwise draws
    the next IV and applies the cipher. -/
def EncryptionManager.encryptChunk
    (E : List Nat → List Nat → List Nat → List Nat)
    (m : EncryptionManager) (data : List Nat) :
    Option (List Nat × List Nat × EncryptionManager) :=
  match m.key with
  | none => none
  | some k =>
    let p := m.generateIV
    some (E k p.1 data, p.1, p.2)

/-- Model of `decryptChunk`: fails when no key is initialized, otherwise applies the
    cipher's decryption with the supplied IV. -/
def EncryptionManager.decryptChunk
    (D : List Nat → List Nat → List Nat → Option (List Nat))
    (m : EncryptionManager) (encrypted iv : List Nat) : Option (List Nat) :=
  match m.key with
  | none => none
  | some k => D k iv encrypted

/-- Model of `reset`: drops the key, zeroes the counter, redraws the session id
    (oracle argument). -/
def EncryptionManager.reset (_m : EncryptionManager) (sid : List Nat) :
    EncryptionManager :=
  { key := none, sessionId := sid, counter := 0 }

/-! ## Chunking (`part_002`) -/

def CHUNK_SIZE : Nat := 64 * 1024

def BUFFER_FULL_THRESHOLD : Nat := 256 * 1024

def BUFFER_LOW_THRESHOLD : Nat := 128 * 1024

/-- Value `setDataChannel` configures the channel's low-water mark:
    `channel.bufferedAmountLowThreshold = BUFFER_LOW_THRESHOLD`. -/
def dataChannelLowThreshold : Nat := BUFFER_LOW_THRESHOLD

/-- Computation `Math.ceil(size / CHUNK_SIZE)` on naturals. -/
def totalChunksOf (size : Nat) : Nat := (size + CHUNK_SIZE - 1) / CHUNK_SIZE

/-- The `i`-th plaintext chunk: `file.slice(i*CHUNK_SIZE, min((i+1)*CHUNK_SIZE, size))`. -/
def chunkAt (content : List Nat) (i : Nat) : List Nat :=
  (content.drop (i * CHUNK_SIZE)).take CHUNK_SIZE

/-- All plaintext chunks of a file, in index order, as the send loop slices them. -/
def senderChunks (content : List Nat) : List (List Nat) :=
  (List.range (totalChunksOf content.length)).map (chunkAt content)

theorem join_chunks_aux (cs : Nat) (hcs : 0 < cs) :
    ∀ (k : Nat) (l : List Nat), l.length ≤ k →
      ((List.range ((l.length + cs - 1) / cs)).map
        (fun i => (l.drop (i * cs)).take cs)).flatten = l := by
  intro k
  induction k with
  | zero =>
    intro l hl
    have hnil : l = [] := List.eq_nil_of_length_eq_zero (by omega)
    subst hnil
    simp [Nat.div_eq_of_lt (show 0 + cs - 1 < cs by omega)]
  | succ k ih =>
    intro l hl
    rcases Nat.eq_zero_or_pos l.length with h0 | hpos
    · have hnil : l = [] := List.eq_nil_of_length_eq_zero h0
      subst hnil
      simp [Nat.div_eq_of_lt (show 0 + cs - 1 < cs by omega)]
    · have htc : (l.length + cs - 1) / cs = ((l.drop cs).length + cs - 1) / cs + 1 := by
        have h1 : l.length + cs - 1 = (l.length - 1) + cs := by omega
        have h2 : (l.drop cs).length = l.length - cs := by simp
        rw [h1, Nat.add_div_right _ hcs, h2]
        congr 1
        rcases le_or_lt cs l.length with h | h
        · congr 1
          omega
        · rw [Nat.div_eq_of_lt (by omega), Nat.div_eq_of_lt (by omega)]
      rw [htc, List.range_succ_eq_map]
      simp only [List.map_cons, List.map_map, List.flatten_cons, Nat.zero_mul,
        List.drop_zero]
      have hmapeq : (List.range (((l.drop cs).length + cs - 1) / cs)).map
          ((fun i => (l.drop (i * cs)).take cs) ∘ Nat.succ) =
          (List.range (((l.drop cs).length + cs - 1) / cs)).map
          (fun i => ((l.drop cs).drop (i * cs)).take cs) := by
        apply List.map_congr_left
        intro i _
        simp only [Function.comp_apply]
        rw [List.drop_drop]
        congr 2
        rw [Nat.succ_mul]
        omega
      rw [hmapeq, ih (l.drop cs) (by simp; omega)]
      exact List.take_append_drop cs l

theorem join_chunks_generic (cs : Nat) (hcs : 0 < cs) (l : List Nat) :
    (((List.range ((l.length + cs - 1) / cs)).map
      (fun i => (l.drop (i * cs)).take cs)).flatten) = l :=
  join_chunks_aux cs hcs l.length l (Nat.le_refl _)

theorem senderChunks_flatten (content : List Nat) :
    (senderChunks content).flatten = content := by
  have := join_chunks_generic CHUNK_SIZE (by norm_num [CHUNK_SIZE]) content
  simpa [senderChunks, totalChunksOf, chunkAt] using this

/-! ## Association-list maps (JS `Map`: `get`, `set` replaces, `delete`)
    and JS `Set` (insertion-ordered, `add` appends when absent) -/

def mapGet {κ α : Type} [DecidableEq κ] : List (κ × α) → κ → Option α
  | [], _ => none
  | p :: rest, k => if p.1 = k then some p.2 else mapGet rest k

def mapSet {κ α : Type} [DecidableEq κ] (m : List (κ × α)) (k : κ) (v : α) :
    List (κ × α) :=
  if (mapGet m k).isSome then m.map (fun p => if p.1 = k then (k, v) else p)
  else m ++ [(k, v)]

def mapDelete {κ α : Type} [DecidableEq κ] (m : List (κ × α)) (k : κ) :
    List (κ × α) :=
  m.filter (fun p => p.1 != k)

def setAdd (l : List String) (x : String) : List String :=
  if x ∈ l then l else l ++ [x]

def setDelete (l : List String) (x : String) : List String :=
  l.filter (fun y => y != x)

theorem mapGet_map_update {κ α : Type} [DecidableEq κ] (k : κ) (v : α) :
    ∀ m : List (κ × α), (mapGet m k).isSome →
      mapGet (m.map (fun p => if p.1 = k then (k, v) else p)) k = some v := by
  intro m
  induction m with
  | nil => intro h; simp [mapGet] at h
  | cons p rest ih =>
    intro h
    by_cases hp : p.1 = k
    · simp [mapGet, hp]
    · simp only [mapGet, hp, if_false, List.map_cons] at h ⊢
      exact ih h

theorem mapGet_append_self {κ α : Type} [DecidableEq κ] (k : κ) (v : α) :
    ∀ m : List (κ × α), mapGet m k = none → mapGet (m ++ [(k, v)]) k = some v := by
  intro m
  induction m with
  | nil => intro _; simp [mapGet]
  | cons p rest ih =>
    intro h
    simp only [mapGet] at h
    by_cases hp : p.1 = k
    · simp [hp] at h
    · simp only [List.cons_append, mapGet, hp, if_false] at *
      exact ih h

theorem mapGet_mapSet_self {κ α : Type} [DecidableEq κ] (m : List (κ × α))
    (k : κ) (v : α) : mapGet (mapSet m k v) k = some v := by
  unfold mapSet
  by_cases h : (mapGet m k).isSome
  · rw [if_pos h]
    exact mapGet_map_update k v m h
  · rw [if_neg h]
    exact mapGet_append_self k v m (by
      cases hg : mapGet m k
      · rfl
      · rw [hg] at h; simp at h)

theorem mapGet_map_update_ne {κ α : Type} [DecidableEq κ] (k k' : κ) (v : α)
    (hne : k' ≠ k) : ∀ m : List (κ × α),
      mapGet (m.map (fun p => if p.1 = k then (k, v) else p)) k' = mapGet m k' := by
  intro m
  induction m with
  | nil => rfl
  | cons p rest ih =>
    by_cases hp : p.1 = k
    · simp only [List.map_cons, if_pos hp, mapGet]
      rw [if_neg (Ne.symm hne), if_neg (by rw [hp]; exact Ne.symm hne)]
      exact ih
    · simp only [List.map_cons, if_neg hp, mapGet]
      by_cases hp' : p.1 = k'
      · simp [hp']
      · rw [if_neg hp', if_neg hp']
        exact ih

theorem mapGet_append_ne {κ α : Type} [DecidableEq κ] (k k' : κ) (v : α)
    (hne : k' ≠ k) : ∀ m : List (κ × α),
      mapGet (m ++ [(k, v)]) k' = mapGet m k' := by
  intro m
  induction m with
  | nil => simp [mapGet, Ne.symm hne]
  | cons p rest ih =>
    simp only [List.cons_append, mapGet]
    by_cases hp' : p.1 = k'
    · simp [hp']
    · rw [if_neg hp', if_neg hp']
      exact ih

theorem mapGet_mapSet_ne {κ α : Type} [DecidableEq κ] (m : List (κ × α))
    (k k' : κ) (v : α) (hne : k' ≠ k) : mapGet (mapSet m k v) k' = mapGet m k' := by
  unfold mapSet
  by_cases h : (mapGet m k).isSome
  · rw [if_pos h]
    exact mapGet_map_update_ne k k' v hne m
  · rw [if_neg h]
    exact mapGet_append_ne k k' v hne m

/-! ## FILE_CHUNK binary framing (`encodeEncryptedChunk` / `decodeEncryptedChunk`) -/

/-- Model of `encodeEncryptedChunk`: `[index:u32 BE][fileIdLen:u8][fileId][ivLen:u8][iv][ciphertext]`.
    `setUint32`/`setUint8` wrap, hence the `beBytes` renderings. -/
def encodeEncryptedChunk (index : Nat) (encrypted iv fileId : List Nat) : List Nat :=
  beBytes 4 index ++ beBytes 1 fileId.length ++ fileId ++
    beBytes 1 iv.length ++ iv ++ encrypted

structure DecodedChunk where
  fileId : List Nat
  chunkIndex : Nat
  encrypted : List Nat
  iv : List Nat
  deriving DecidableEq, Repr

/-- Model of `decodeEncryptedChunk`: reads the framing back field by field. -/
def decodeEncryptedChunk (payload : List Nat) : DecodedChunk :=
  let chunkIndex := beVal (payload.take 4)
  let fileIdLength := (payload.drop 4).headD 0
  let fileId := (payload.drop 5).take fileIdLength
  let ivLength := (payload.drop (5 + fileIdLength)).headD 0
  let iv := (payload.drop (6 + fileIdLength)).take ivLength
  let encrypted := payload.drop (6 + fileIdLength + ivLength)
  ⟨fileId, chunkIndex, encrypted, iv⟩

theorem beVal_beBytes (w : Nat) : ∀ n : Nat, n < 256 ^ w → beVal (beBytes w n) = n := by
  induction w with
  | zero =>
    intro n hn
    simp [Nat.pow_zero, Nat.lt_one_iff] at hn
    simp [hn, beBytes, beVal]
  | succ w ih =>
    intro n hn
    have hdiv : n / 256 < 256 ^ w := by
      rw [Nat.div_lt_iff_lt_mul (by norm_num)]
      calc n < 256 ^ (w + 1) := hn
        _ = 256 ^ w * 256 := by ring
    simp only [beBytes, beVal, List.foldl_append, List.foldl_cons, List.foldl_nil]
    have := ih (n / 256) hdiv
    simp only [beVal] at this
    rw [this]
    omega

theorem decode_encode_chunk (index : Nat) (encrypted iv fileId : List Nat)
    (hidx : index < 2 ^ 32) (hfid : fileId.length < 256) (hiv : iv.length < 256) :
    decodeEncryptedChunk (encodeEncryptedChunk index encrypted iv fileId) =
      ⟨fileId, index, encrypted, iv⟩ := by
  have hshape : encodeEncryptedChunk index encrypted iv fileId =
      beBytes 4 index ++ (fileId.length % 256 ::
        (fileId ++ (iv.length % 256 :: (iv ++ encrypted)))) := by
    simp [encodeEncryptedChunk, beBytes]
  have hfl : fileId.length % 256 = fileId.length := Nat.mod_eq_of_lt hfid
  have hil : iv.length % 256 = iv.length := Nat.mod_eq_of_lt hiv
  have hlen4 : (beBytes 4 index).length = 4 := beBytes_length 4 index
  have htake4 : (encodeEncryptedChunk index encrypted iv fileId).take 4 =
      beBytes 4 index := by
    rw [hshape, List.take_append_of_le_length (by omega), List.take_of_length_le (by omega)]
  have hdrop4 : (encodeEncryptedChunk index encrypted iv fileId).drop 4 =
      fileId.length % 256 :: (fileId ++ (iv.length % 256 :: (iv ++ encrypted))) := by
    rw [hshape, List.drop_append_of_le_length (by omega), List.drop_of_length_le (by omega),
      List.nil_append]
  have hdrop5 : (encodeEncryptedChunk index encrypted iv fileId).drop 5 =
      fileId ++ (iv.length % 256 :: (iv ++ encrypted)) := by
    have h1 : (encodeEncryptedChunk index encrypted iv fileId).drop 5 =
        ((encodeEncryptedChunk index encrypted iv fileId).drop 4).drop 1 := by
      rw [List.drop_drop]
    rw [h1, hdrop4]
    rfl
  have hdrop5f : (encodeEncryptedChunk index encrypted iv fileId).drop (5 + fileId.length) =
      iv.length % 256 :: (iv ++ encrypted) := by
    have h1 : (encodeEncryptedChunk index encrypted iv fileId).drop (5 + fileId.length) =
        ((encodeEncryptedChunk index encrypted iv fileId).drop 5).drop fileId.length := by
      rw [List.drop_drop]
    rw [h1, hdrop5, List.drop_left]
  have hdrop6f : (encodeEncryptedChunk index encrypted iv fileId).drop (6 + fileId.length) =
      iv ++ encrypted := by
    have h1 : (encodeEncryptedChunk index encrypted iv fileId).drop (6 + fileId.length) =
        ((encodeEncryptedChunk index encrypted iv fileId).drop (5 + fileId.length)).drop 1 := by
      rw [List.drop_drop]
      congr 1
      omega
    rw [h1, hdrop5f]
    rfl
  have hdrop6fi : (encodeEncryptedChunk index encrypted iv fileId).drop
      (6 + fileId.length + iv.length) =
      encrypted := by
    have h1 : (encodeEncryptedChunk index encrypted iv fileId).drop
        (6 + fileId.length + iv.length) =
        ((encodeEncryptedChunk index encrypted iv fileId).drop (6 + fileId.length)).drop
          iv.length := by
      rw [List.drop_drop]
    rw [h1, hdrop6f, List.drop_left]
  simp only [decodeEncryptedChunk, htake4, hdrop4, hdrop5, hdrop5f, hdrop6f, hdrop6fi,
    hfl, hil, List.headD_cons, List.take_left]
  rw [beVal_beBytes 4 index (by norm_num at hidx ⊢; omega)]

/-! ## FileTransferManager (`part_002`): messages and sender state machine

Wire messages are modelled in parsed form; the byte framing of `FILE_CHUNK`
is `encodeEncryptedChunk`/`decodeEncryptedChunk` above, and the receiver
parses each chunk payload through `decodeEncryptedChunk` exactly as
`handleFileChunk` does.  Callbacks that matter to the claims (`onError`,
`onTransferComplete`) appear as dedicated outputs next to the wire sends. -/

structure FileInfo where
  id : List Nat
  size : Nat
  totalChunks : Nat
  deriving DecidableEq, Repr

inductive Msg where
  | fileInfo (info : FileInfo)
  | fileChunk (index : Nat) (fileId : List Nat) (iv : List Nat) (encrypted : List Nat)
  | fileComplete
  | fileAccept
  | fileReject
  | encryptionKey (key : List Nat)
  | queueInfo (totalFiles currentIndex : Nat)
  deriving DecidableEq, Repr

inductive Out where
  | wire (m : Msg)
  | errorCb
  | transferCompleteCb
  deriving DecidableEq, Repr

/-- Holds `true` exactly on the sends the reject claim forbids afterwards. -/
def isFileSend : Out → Bool
  | Out.wire (Msg.fileInfo _) => true
  | Out.wire (Msg.fileChunk _ _ _ _) => true
  | _ => false

structure QueuedFile where
  content : List Nat
  info : FileInfo
  deriving DecidableEq, Repr

/-- Model of `sendFiles` queue building: it builds each queue entry with a fresh id (oracle argument) and
    `totalChunks = Math.ceil(size / CHUNK_SIZE)`. -/
def mkQueued (content fid : List Nat) : QueuedFile :=
  { content := content,
    info := { id := fid, size := content.length,
              totalChunks := totalChunksOf content.length } }

structure SenderState where
  sendQueue : List QueuedFile
  currentSendFile : Option QueuedFile
  currentChunkIndex : Nat
  totalChunks : Nat
  isPaused : Bool
  enc : EncryptionManager
  deriving DecidableEq, Repr

def Cipher : Type := List Nat → List Nat → List Nat → List Nat

/-- One invocation of `sendNextChunk` (the channel is present and open;
    `buffered` is the channel's `bufferedAmount` at this invocation).
    The trailing `setTimeout(sendNextChunk, 0)` / `setTimeout(processNextFile, 100)`
    reschedules are delivered as later events. -/
def sendNextChunkStep (E : Cipher) (buffered : Nat) (s : SenderState) :
    SenderState × List Out :=
  match s.currentSendFile with
  | none => (s, [])
  | some qf =>
    if s.isPaused then (s, [])
    else if s.totalChunks ≤ s.currentChunkIndex then
      ({ s with currentSendFile := none }, [Out.wire Msg.fileComplete])
    else if BUFFER_FULL_THRESHOLD < buffered then
      ({ s with isPaused := true }, [])
    else
      match s.enc.encryptChunk E (chunkAt qf.content s.currentChunkIndex) with
      | none => ({ s with currentSendFile := none }, [Out.errorCb])
      | some (ct, iv, enc') =>
        ({ s with currentChunkIndex := s.currentChunkIndex + 1, enc := enc' },
         [Out.wire (Msg.fileChunk s.currentChunkIndex qf.info.id iv ct)])

/-- One invocation of `processNextFile`. -/
def processNextFileStep (s : SenderState) : SenderState × List Out :=
  match s.sendQueue with
  | [] => (s, [Out.transferCompleteCb])
  | q :: rest =>
    ({ s with
        sendQueue := rest, currentSendFile := some q, currentChunkIndex := 0,
        totalChunks := q.info.totalChunks, isPaused := false },
     [Out.wire (Msg.fileInfo q.info)])

/-- The asynchronous events the sender reacts to:  `tick` is the 0-delay
    `sendNextChunk` reschedule, `lowWater` the channel's `bufferedamountlow`
    event, `accept`/`reject` the peer's FILE_ACCEPT/FILE_REJECT, and
    `processNext` the 100 ms `processNextFile` reschedule. -/
inductive SenderEv where
  | tick
  | lowWater
  | accept
  | reject
  | processNext
  deriving DecidableEq, Repr

def stepSender (E : Cipher) (buffered : Nat) (s : SenderState) (e : SenderEv) :
    SenderState × List Out :=
  match e with
  | SenderEv.tick => sendNextChunkStep E buffered s
  | SenderEv.accept => sendNextChunkStep E buffered s
  | SenderEv.reject =>
    ({ s with currentSendFile := none, sendQueue := [] }, [Out.errorCb])
  | SenderEv.processNext => processNextFileStep s
  | SenderEv.lowWater =>
    if s.isPaused && s.currentSendFile.isSome then
      sendNextChunkStep E buffered { s with isPaused := false }
    else (s, [])

def runSender (E : Cipher) : SenderState → List (Nat × SenderEv) →
    SenderState × List Out
  | s, [] => (s, [])
  | s, (b, e) :: rest =>
    let p := stepSender E b s e
    let q := runSender E p.1 rest
    (q.1, p.2 ++ q.2)

/-- Model of `sendFiles` (precondition in the code: channel open and encryption ready):
    queue the files, emit QUEUE_INFO, start `processNextFile` when idle. -/
def sendFilesStep (s : SenderState) (files : List (List Nat × List Nat)) :
    SenderState × List Out :=
  let queued := files.map (fun p => mkQueued p.1 p.2)
  let s1 := { s with sendQueue := s.sendQueue ++ queued }
  let outQ := [Out.wire (Msg.queueInfo s1.sendQueue.length 0)]
  match s1.currentSendFile with
  | none =>
    let p := processNextFileStep s1
    (p.1, outQ ++ p.2)
  | some _ => (s1, outQ)

/-! The straight-line rendering of the accepted-file send loop (the repeated
`sendNextChunk` invocations when the buffer never fills): one chunk message
per iteration while `currentChunkIndex < totalChunks`, then FILE_COMPLETE.
The structural counter `remaining` is `totalChunks - idx`. -/

def sendChunksLoop (E : Cipher) (qf : QueuedFile) :
    EncryptionManager → Nat → Nat → List Msg × EncryptionManager
  | m, _, 0 => ([Msg.fileComplete], m)
  | m, idx, r + 1 =>
    match m.encryptChunk E (chunkAt qf.content idx) with
    | none => ([], m)
    | some (ct, iv, m') =>
      let rest := sendChunksLoop E qf m' (idx + 1) r
      (Msg.fileChunk idx qf.info.id iv ct :: rest.1, rest.2)

/-- All messages of one accepted file, starting at chunk `idx`. -/
def sendChunksFrom (E : Cipher) (m : EncryptionManager) (qf : QueuedFile)
    (idx : Nat) : List Msg × EncryptionManager :=
  sendChunksLoop E qf m idx (qf.info.totalChunks - idx)

/-- The happy-path message trace of a whole batch (every file accepted):
    FILE_INFO then the chunk stream then FILE_COMPLETE, file after file,
    threading the one `EncryptionManager` through. -/
def sendBatch (E : Cipher) : EncryptionManager → List QueuedFile →
    List (List Msg) × EncryptionManager
  | m, [] => ([], m)
  | m, qf :: rest =>
    let p := sendChunksFrom E m qf 0
    let q := sendBatch E p.2 rest
    ((Msg.fileInfo qf.info :: p.1) :: q.1, q.2)

/-- The IVs carried by the FILE_CHUNK messages of a trace. -/
def ivsOf (msgs : List Msg) : List (List Nat) :=
  msgs.filterMap (fun m => match m with
    | Msg.fileChunk _ _ iv _ => some iv
    | _ => none)

/-! ## Receiver side of FileTransferManager -/

structure FileMetadata where
  id : List Nat
  size : Nat
  totalChunks : Nat
  receivedChunks : List (Option (List Nat))
  bytesReceived : Nat
  deriving DecidableEq, Repr

structure ReceiverState where
  receivingFiles : List (List Nat × FileMetadata)
  currentReceiveFileId : Option (List Nat)
  enc : EncryptionManager
  deriving DecidableEq, Repr

/-- JavaScript array index assignment: in range it overwrites; past the end it
    extends the array with holes. -/
def jsArraySet {α : Type} (l : List (Option α)) (i : Nat) (v : α) :
    List (Option α) :=
  if i < l.length then l.set i (some v)
  else l ++ List.replicate (i - l.length) none ++ [some v]

/-- Model of `handleFileInfo` after the application's accept/decline answer:
    on accept allocate `new Array(totalChunks)`, record the active receive,
    reply FILE_ACCEPT; on decline reply FILE_REJECT. -/
def handleFileInfoR (st : ReceiverState) (info : FileInfo) (accept : Bool) :
    ReceiverState × List Msg :=
  if accept then
    let md : FileMetadata :=
      { id := info.id, size := info.size, totalChunks := info.totalChunks,
        receivedChunks := List.replicate info.totalChunks none, bytesReceived := 0 }
    ({ st with
        receivingFiles := mapSet st.receivingFiles info.id md,
        currentReceiveFileId := some info.id }, [Msg.fileAccept])
  else (st, [Msg.fileReject])

def Decipher : Type := List Nat → List Nat → List Nat → Option (List Nat)

/-- Model of `handleFileChunk`: parse the framing, look up the reassembly record
    (drop the chunk when unknown), decrypt (on failure surface an error but
    store nothing), on success store the plaintext at `chunkIndex` and bump
    `bytesReceived`. -/
def handleFileChunkR (D : Decipher) (st : ReceiverState) (payload : List Nat) :
    ReceiverState :=
  let d := decodeEncryptedChunk payload
  match mapGet st.receivingFiles d.fileId with
  | none => st
  | some md =>
    match st.enc.decryptChunk D d.encrypted d.iv with
    | none => st
    | some pt =>
      let md' := { md with
        receivedChunks := jsArraySet md.receivedChunks d.chunkIndex pt,
        bytesReceived := md.bytesReceived + pt.length }
      { st with receivingFiles := mapSet st.receivingFiles d.fileId md' }

/-- Model of `handleFileComplete`: for the active receive, filter out the never-stored
    entries, concatenate in index order, deliver, and clear the record.
    The delivery (file bytes and metadata) is the second component. -/
def handleFileCompleteR (st : ReceiverState) :
    ReceiverState × Option (List Nat × FileMetadata) :=
  match st.currentReceiveFileId with
  | none => (st, none)
  | some fid =>
    match mapGet st.receivingFiles fid with
    | none => (st, none)
    | some md =>
      let bytes := (md.receivedChunks.filterMap id).flatten
      ({ st with
          receivingFiles := mapDelete st.receivingFiles fid,
          currentReceiveFileId := none },
       some (bytes, md))

/-- Feed a message trace to the receiver (the application accepts offers);
    FILE_CHUNK arrives as its encoded payload, exactly as on the wire. -/
def runReceiver (D : Decipher) : ReceiverState → List Msg →
    ReceiverState × List (List Nat × FileMetadata)
  | st, [] => (st, [])
  | st, m :: rest =>
    let p : ReceiverState × List (List Nat × FileMetadata) :=
      match m with
      | Msg.fileInfo info => ((handleFileInfoR st info true).1, [])
      | Msg.fileChunk i fid iv ct =>
        (handleFileChunkR D st (encodeEncryptedChunk i ct iv fid), [])
      | Msg.fileComplete =>
        let q := handleFileCompleteR st
        (q.1, q.2.toList)
      | _ => (st, [])
    let q := runReceiver D p.1 rest
    (q.1, p.2 ++ q.2)

/-! ## Signaling server (`part_000`)

Clients and rooms are the two JS `Map`s; a room's member set is the
insertion-ordered JS `Set`.  `send` delivers only to a known client (we take
live sockets as open); outputs are the ordered `(recipient, message)` list. -/

inductive ServerMessage where
  | connected (clientId : String)
  | roomCreated (roomId : String)
  | roomJoined (roomId : String) (isInitiator : Bool)
  | peerJoined
  | peerLeft
  | error (code message : String)
  | offer (sdp : String)
  | answer (sdp : String)
  | iceCandidate (candidate : String) (sdpMid : Option String)
      (sdpMLineIndex : Option Nat)
  deriving DecidableEq, Repr

inductive ClientMessage where
  | createRoom
  | joinRoom (roomId : String)
  | leaveRoom
  | offer (sdp : String)
  | answer (sdp : String)
  | iceCandidate (candidate : String) (sdpMid : Option String)
      (sdpMLineIndex : Option Nat)
  | unknown
  deriving DecidableEq, Repr

structure Client where
  roomId : Option String
  deriving DecidableEq, Repr

structure Room where
  id : String
  clients : List String
  creatorId : String
  deriving DecidableEq, Repr

structure ServerState where
  clients : List (String × Client)
  rooms : List (String × Room)
  deriving DecidableEq, Repr

/-- JavaScript `toUpperCase()`: uppercase every character.
    Written over the character data so that it evaluates in the kernel. -/
def strToUpper (s : String) : String := ⟨s.data.map Char.toUpper⟩

def sendTo (st : ServerState) (cid : String) (m : ServerMessage) :
    List (String × ServerMessage) :=
  match mapGet st.clients cid with
  | some _ => [(cid, m)]
  | none => []

def sendErr (st : ServerState) (cid code message : String) :
    List (String × ServerMessage) :=
  sendTo st cid (ServerMessage.error code message)

def getPeerInRoom (st : ServerState) (roomId excludeClientId : String) :
    Option String :=
  match mapGet st.rooms roomId with
  | none => none
  | some room => room.clients.find? (fun id => id != excludeClientId)

/-- Model of `handleCreateRoom`; `genId` is the value `generateRoomId()` returned
    (`randomUUID().substring(0, 6).toUpperCase()` — no freshness check). -/
def handleCreateRoom (st : ServerState) (cid genId : String) :
    ServerState × List (String × ServerMessage) :=
  match mapGet st.clients cid with
  | none => (st, [])
  | some c =>
    match c.roomId with
    | some _ =>
      (st, sendErr st cid "ALREADY_IN_ROOM" "Leave current room before creating a new one")
    | none =>
      let room : Room := { id := genId, clients := [cid], creatorId := cid }
      let st1 : ServerState :=
        { clients := mapSet st.clients cid { roomId := some genId },
          rooms := mapSet st.rooms genId room }
      (st1, sendTo st1 cid (ServerMessage.roomCreated genId))

def handleJoinRoom (st : ServerState) (cid roomIdArg : String) :
    ServerState × List (String × ServerMessage) :=
  match mapGet st.clients cid with
  | none => (st, [])
  | some c =>
    match c.roomId with
    | some _ =>
      (st, sendErr st cid "ALREADY_IN_ROOM" "Leave current room before joining another")
    | none =>
      match mapGet st.rooms (strToUpper roomIdArg) with
      | none =>
        (st, sendErr st cid "ROOM_NOT_FOUND" "Room does not exist or has expired")
      | some room =>
        if 2 ≤ room.clients.length then
          (st, sendErr st cid "ROOM_FULL" "Room already has two participants")
        else
          let room' := { room with clients := setAdd room.clients cid }
          let st1 : ServerState :=
            { clients := mapSet st.clients cid { roomId := some room.id },
              rooms := mapSet st.rooms (strToUpper roomIdArg) room' }
          let outJoin := sendTo st1 cid (ServerMessage.roomJoined room.id false)
          let outPeer := match getPeerInRoom st1 room.id cid with
            | some pid => sendTo st1 pid ServerMessage.peerJoined
            | none => []
          (st1, outJoin ++ outPeer)

def handleLeaveRoom (st : ServerState) (cid : String) :
    ServerState × List (String × ServerMessage) :=
  match mapGet st.clients cid with
  | none => (st, [])
  | some c =>
    match c.roomId with
    | none => (st, [])
    | some rid =>
      match mapGet st.rooms rid with
      | none =>
        ({ st with clients := mapSet st.clients cid { roomId := none } }, [])
      | some room =>
        let room' := { room with clients := setDelete room.clients cid }
        let st1 : ServerState := { st with rooms := mapSet st.rooms rid room' }
        let outPeer := match getPeerInRoom st1 room.id cid with
          | some pid => sendTo st1 pid ServerMessage.peerLeft
          | none => []
        let st2 : ServerState :=
          if room'.clients.length = 0 then
            { st1 with rooms := mapDelete st1.rooms room.id }
          else st1
        ({ st2 with clients := mapSet st2.clients cid { roomId := none } }, outPeer)

def relayToPeer (st : ServerState) (cid : String) (m : ServerMessage) :
    List (String × ServerMessage) :=
  match mapGet st.clients cid with
  | none => sendErr st cid "NOT_IN_ROOM" "Join a room before sending WebRTC messages"
  | some c =>
    match c.roomId with
    | none => sendErr st cid "NOT_IN_ROOM" "Join a room before sending WebRTC messages"
    | some rid =>
      match getPeerInRoom st rid cid with
      | none => sendErr st cid "NO_PEER" "No peer connected to relay message to"
      | some pid => sendTo st pid m

/-- The relayed server-side form of a relayable client message: the `type`
    discriminator and every payload field are copied verbatim. -/
def toRelay : ClientMessage → Option ServerMessage
  | ClientMessage.offer sdp => some (ServerMessage.offer sdp)
  | ClientMessage.answer sdp => some (ServerMessage.answer sdp)
  | ClientMessage.iceCandidate c mid idx =>
    some (ServerMessage.iceCandidate c mid idx)
  | _ => none

/-- Model of the `handleMessage` dispatch (`genId` is the oracle for the create case). -/
def handleMessage (st : ServerState) (cid genId : String) (m : ClientMessage) :
    ServerState × List (String × ServerMessage) :=
  match m with
  | ClientMessage.createRoom => handleCreateRoom st cid genId
  | ClientMessage.joinRoom rid => handleJoinRoom st cid rid
  | ClientMessage.leaveRoom => handleLeaveRoom st cid
  | ClientMessage.offer sdp => (st, relayToPeer st cid (ServerMessage.offer sdp))
  | ClientMessage.answer sdp => (st, relayToPeer st cid (ServerMessage.answer sdp))
  | ClientMessage.iceCandidate c mid idx =>
    (st, relayToPeer st cid (ServerMessage.iceCandidate c mid idx))
  | ClientMessage.unknown => (st, sendErr st cid "UNKNOWN_MESSAGE" "Unknown message type")

/-! ## Claim C4: backpressure -/

theorem sendNextChunkStep_no_chunk (E : Cipher) (b : Nat) (s : SenderState)
    (h : BUFFER_FULL_THRESHOLD < b ∨ s.isPaused = true) (i : Nat)
    (f iv ct : List Nat) :
    Out.wire (Msg.fileChunk i f iv ct) ∉ (sendNextChunkStep E b s).2 := by
  unfold sendNextChunkStep
  cases hc : s.currentSendFile with
  | none => simp
  | some qf =>
    by_cases hp : s.isPaused
    · simp [hp]
    · have hb : BUFFER_FULL_THRESHOLD < b := by
        rcases h with h | h
        · exact h
        · exact absurd h hp
      by_cases hdone : s.totalChunks ≤ s.currentChunkIndex
      · simp [hp, hdone]
      · simp [hp, hdone, hb]

/-- Claim C4: the sender never emits a FILE_CHUNK while the transport's
buffered-byte count exceeds BUFFER_FULL (262144 bytes): `sendNextChunk`
checks the buffered amount before each chunk send and pauses above the
threshold; the low-water mark is configured at BUFFER_LOW (131072 bytes)
and the `bufferedamountlow` event is the only event that resumes a paused
sender — on every other event a paused sender emits no FILE_CHUNK and, on
the `sendNextChunk` reschedules, does nothing at all (no spin-wait). -/
theorem c4_backpressure :
    BUFFER_FULL_THRESHOLD = 262144 ∧ BUFFER_LOW_THRESHOLD = 131072 ∧
    dataChannelLowThreshold = BUFFER_LOW_THRESHOLD ∧
    (∀ (E : Cipher) (buffered : Nat) (s : SenderState) (e : SenderEv)
      (i : Nat) (f iv ct : List Nat),
      BUFFER_FULL_THRESHOLD < buffered ∨
        (s.isPaused = true ∧ e ≠ SenderEv.lowWater) →
      Out.wire (Msg.fileChunk i f iv ct) ∉ (stepSender E buffered s e).2) ∧
    (∀ (E : Cipher) (buffered : Nat) (s : SenderState),
      s.isPaused = true →
      stepSender E buffered s SenderEv.tick = (s, []) ∧
      stepSender E buffered s SenderEv.accept = (s, [])) := by
  refine ⟨rfl, rfl, rfl, ?_, ?_⟩
  · intro E buffered s e i f iv ct h
    cases e with
    | tick =>
      apply sendNextChunkStep_no_chunk
      rcases h with h | ⟨h, _⟩
      · exact Or.inl h
      · exact Or.inr h
    | accept =>
      apply sendNextChunkStep_no_chunk
      rcases h with h | ⟨h, _⟩
      · exact Or.inl h
      · exact Or.inr h
    | reject => simp [stepSender]
    | processNext =>
      simp only [stepSender]
      unfold processNextFileStep
      cases s.sendQueue <;> simp
    | lowWater =>
      have hb : BUFFER_FULL_THRESHOLD < buffered := by
        rcases h with h | ⟨_, h⟩
        · exact h
        · exact absurd rfl h
      simp only [stepSender]
      by_cases hcond : s.isPaused && s.currentSendFile.isSome
      · rw [if_pos hcond]
        exact sendNextChunkStep_no_chunk E buffered _ (Or.inl hb) i f iv ct
      · rw [if_neg hcond]
        simp
  · intro E buffered s hp
    constructor <;>
      · show sendNextChunkStep E buffered s = (s, [])
        unfold sendNextChunkStep
        cases s.currentSendFile <;> simp [hp]

theorem c4_backpressure_witness :
    Out.wire (Msg.fileChunk 0 [] [] []) ∉
      (stepSender (fun _ _ p => p) 300000
        ⟨[], some (mkQueued [1] [7]), 0, 1, false, ⟨some [], [0, 0, 0, 0], 0⟩⟩
        SenderEv.tick).2 :=
  c4_backpressure.2.2.2.1 (fun _ _ p => p) 300000
    ⟨[], some (mkQueued [1] [7]), 0, 1, false, ⟨some [], [0, 0, 0, 0], 0⟩⟩
    SenderEv.tick 0 [] [] []
    (Or.inl (by norm_num [BUFFER_FULL_THRESHOLD]))

/-! ## Claim C7: FILE_REJECT cancels the whole batch -/

theorem stepSender_quiescent (E : Cipher) (b : Nat) (e : SenderEv)
    (s : SenderState) (h1 : s.currentSendFile = none) (h2 : s.sendQueue = []) :
    (stepSender E b s e).1.currentSendFile = none ∧
    (stepSender E b s e).1.sendQueue = [] ∧
    ((stepSender E b s e).2.all (fun o => !(isFileSend o))) = true := by
  cases e <;>
    simp [stepSender, sendNextChunkStep, processNextFileStep, h1, h2, isFileSend]

theorem runSender_quiescent (E : Cipher) : ∀ (evs : List (Nat × SenderEv))
    (s : SenderState), s.currentSendFile = none → s.sendQueue = [] →
    ((runSender E s evs).2.all (fun o => !(isFileSend o))) = true := by
  intro evs
  induction evs with
  | nil => intro s _ _; simp [runSender]
  | cons be rest ih =>
    intro s h1 h2
    obtain ⟨g1, g2, g3⟩ := stepSender_quiescent E be.1 be.2 s h1 h2
    simp only [runSender, List.all_append]
    rw [g3, ih _ g1 g2]
    rfl

/-- Claim C7: on FILE_REJECT the sender surfaces an error, clears the current
in-flight file and discards the whole outbound queue; afterwards, under any
sequence of events other than a new `sendFiles` call, no FILE_INFO and no
FILE_CHUNK is ever emitted. -/
theorem c7_reject_cancels_batch (E : Cipher) (buffered : Nat) (s : SenderState) :
    stepSender E buffered s SenderEv.reject =
      ({ s with currentSendFile := none, sendQueue := [] }, [Out.errorCb]) ∧
    ∀ evs : List (Nat × SenderEv),
      ((runSender E (stepSender E buffered s SenderEv.reject).1 evs).2.all
        (fun o => !(isFileSend o))) = true := by
  constructor
  · rfl
  · intro evs
    exact runSender_quiescent E evs _ rfl rfl

/-! ## Claim C10: FILE_COMPLETE delivers unconditionally, filtering holes -/

/-- Claim C10: on FILE_COMPLETE the receiver delivers the active receive's file
unconditionally: the never-stored entries of the chunk array (chunk never
arrived, or its decryption failed — a failed decryption stores nothing and
leaves the state unchanged) are silently dropped by the `filterMap` before
concatenation, with no completeness or size check. -/
theorem c10_lenient_complete (D : Decipher) (st : ReceiverState)
    (a : List Nat) (md : FileMetadata)
    (hact : st.currentReceiveFileId = some a)
    (hmd : mapGet st.receivingFiles a = some md) :
    handleFileCompleteR st =
      ({ st with
          receivingFiles := mapDelete st.receivingFiles a,
          currentReceiveFileId := none },
       some ((md.receivedChunks.filterMap id).flatten, md)) ∧
    (∀ payload : List Nat,
      st.enc.decryptChunk D (decodeEncryptedChunk payload).encrypted
        (decodeEncryptedChunk payload).iv = none →
      handleFileChunkR D st payload = st) := by
  constructor
  · simp [handleFileCompleteR, hact, hmd]
  · intro payload hfail
    unfold handleFileChunkR
    cases hg : mapGet st.receivingFiles (decodeEncryptedChunk payload).fileId with
    | none => simp [hg]
    | some md' => simp [hg, hfail]

theorem c10_lenient_complete_witness :
    (handleFileCompleteR ⟨[([1], ⟨[1], 3, 3, [some [9], none, some [8]], 2⟩)],
        some [1], ⟨some [], [0, 0, 0, 0], 0⟩⟩ =
      ({ (⟨[([1], ⟨[1], 3, 3, [some [9], none, some [8]], 2⟩)],
          some [1], ⟨some [], [0, 0, 0, 0], 0⟩⟩ : ReceiverState) with
          receivingFiles := mapDelete
            [([1], ⟨[1], 3, 3, [some [9], none, some [8]], 2⟩)] [1],
          currentReceiveFileId := none },
       some ((([some [9], none, some [8]] : List (Option (List Nat))).filterMap
          id).flatten,
         ⟨[1], 3, 3, [some [9], none, some [8]], 2⟩))) ∧
    ((([some [9], none, some [8]] : List (Option (List Nat))).filterMap
        id).flatten = [9, 8]) ∧
    ([9, 8] : List Nat).length < 3 :=
  ⟨(c10_lenient_complete (fun _ _ _ => none)
      ⟨[([1], ⟨[1], 3, 3, [some [9], none, some [8]], 2⟩)],
        some [1], ⟨some [], [0, 0, 0, 0], 0⟩⟩ [1]
      ⟨[1], 3, 3, [some [9], none, some [8]], 2⟩ rfl rfl).1,
   by decide, by decide⟩

/-! ## Claim C8: zero-byte file -/

/-- Claim C8: for a zero-byte file the sender computes `totalChunks = 0` and
sends no FILE_CHUNK — `sendFiles` emits QUEUE_INFO then FILE_INFO, and the
FILE_ACCEPT reply leads straight to FILE_COMPLETE; the receiver replies
FILE_ACCEPT to the offer and on FILE_COMPLETE delivers an empty (zero-byte)
file. -/
theorem c8_zero_byte (fid : List Nat) (m : EncryptionManager) (E : Cipher)
    (b : Nat) (stR : ReceiverState) :
    totalChunksOf 0 = 0 ∧
    (sendFilesStep ⟨[], none, 0, 0, false, m⟩ [([], fid)]).2 =
      [Out.wire (Msg.queueInfo 1 0), Out.wire (Msg.fileInfo ⟨fid, 0, 0⟩)] ∧
    (stepSender E b (sendFilesStep ⟨[], none, 0, 0, false, m⟩ [([], fid)]).1
      SenderEv.accept).2 = [Out.wire Msg.fileComplete] ∧
    (handleFileInfoR stR ⟨fid, 0, 0⟩ true).2 = [Msg.fileAccept] ∧
    (handleFileCompleteR (handleFileInfoR stR ⟨fid, 0, 0⟩ true).1).2 =
      some ([], ⟨fid, 0, 0, [], 0⟩) := by
  have htc : totalChunksOf 0 = 0 := by norm_num [totalChunksOf, CHUNK_SIZE]
  refine ⟨htc, ?_, ?_, ?_, ?_⟩
  · simp [sendFilesStep, processNextFileStep, mkQueued, htc]
  · simp [sendFilesStep, processNextFileStep, mkQueued, htc, stepSender,
      sendNextChunkStep]
  · simp [handleFileInfoR]
  · simp [handleFileInfoR, handleFileCompleteR, mapGet_mapSet_self]

/-! ## Claim C3: create-room -/

/-- Claim C3, amended: on create-room from a client not in any room the server
stores a room under the generated 6-character code with the requester as sole
member and creator, and emits `room-created` only to the requester; but the
generated code is NOT checked for freshness (no retry on collision): the room
is written with `rooms.set`, so a room that already had that code is
overwritten, while rooms under every other code are untouched. -/
theorem c3_create_room (st : ServerState) (cid genId : String) (c : Client)
    (hc : mapGet st.clients cid = some c) (hfree : c.roomId = none) :
    handleCreateRoom st cid genId =
      ({ clients := mapSet st.clients cid { roomId := some genId },
         rooms := mapSet st.rooms genId
           { id := genId, clients := [cid], creatorId := cid } },
       [(cid, ServerMessage.roomCreated genId)]) ∧
    mapGet (mapSet st.rooms genId
        { id := genId, clients := [cid], creatorId := cid }) genId =
      some { id := genId, clients := [cid], creatorId := cid } ∧
    (∀ k : String, k ≠ genId →
      mapGet (mapSet st.rooms genId
          { id := genId, clients := [cid], creatorId := cid }) k =
        mapGet st.rooms k) := by
  refine ⟨?_, mapGet_mapSet_self _ _ _, fun k hk => mapGet_mapSet_ne _ _ _ _ hk⟩
  simp [handleCreateRoom, hc, hfree, sendTo, mapGet_mapSet_self]

theorem c3_create_room_witness :
    handleCreateRoom ⟨[("B", ⟨none⟩)], []⟩ "B" "XY12AB" =
      ({ clients := mapSet [("B", ⟨none⟩)] "B" { roomId := some "XY12AB" },
         rooms := mapSet [] "XY12AB"
           { id := "XY12AB", clients := ["B"], creatorId := "B" } },
       [("B", ServerMessage.roomCreated "XY12AB")]) :=
  (c3_create_room ⟨[("B", ⟨none⟩)], []⟩ "B" "XY12AB" ⟨none⟩ rfl rfl).1

/-- Claim C3 as frozen is false: with a room `ABC123` already present
(creator ALICE, sole member ALICE), a create-room from BOB for which the
generator returns the colliding code `ABC123` silently replaces the existing
room — the stored room's creator and member set change — so the code is not
fresh, there is no retry, and an existing room IS overwritten. -/
theorem c3_counterexample :
    mapGet (⟨[("ALICE", ⟨some "ABC123"⟩), ("BOB", ⟨none⟩)],
        [("ABC123", ⟨"ABC123", ["ALICE"], "ALICE"⟩)]⟩ : ServerState).rooms
        "ABC123" = some ⟨"ABC123", ["ALICE"], "ALICE"⟩ ∧
    mapGet (handleCreateRoom
        ⟨[("ALICE", ⟨some "ABC123"⟩), ("BOB", ⟨none⟩)],
          [("ABC123", ⟨"ABC123", ["ALICE"], "ALICE"⟩)]⟩
        "BOB" "ABC123").1.rooms "ABC123" =
      some ⟨"ABC123", ["BOB"], "BOB"⟩ ∧
    (⟨"ABC123", ["BOB"], "BOB"⟩ : Room) ≠ ⟨"ABC123", ["ALICE"], "ALICE"⟩ := by
  refine ⟨rfl, ?_, by decide⟩
  rfl

/-! ## Claim C5: join-room -/

/-- Claim C5: every join-room request normalizes the supplied code to
uppercase for lookup and is answered with exactly one of: ALREADY_IN_ROOM
when the requester is in any room; ROOM_NOT_FOUND when no room has the
normalized code; ROOM_FULL when the room already has two members; otherwise
the requester is added and `room-joined {isInitiator: false}` goes to the
joiner before `peer-joined` goes to the other occupant. -/
theorem c5_join_room (st : ServerState) (cid roomIdArg : String) (c : Client)
    (hc : mapGet st.clients cid = some c) :
    (∀ r, c.roomId = some r →
      handleJoinRoom st cid roomIdArg =
        (st, [(cid, ServerMessage.error "ALREADY_IN_ROOM"
          "Leave current room before joining another")])) ∧
    (c.roomId = none → mapGet st.rooms (strToUpper roomIdArg) = none →
      handleJoinRoom st cid roomIdArg =
        (st, [(cid, ServerMessage.error "ROOM_NOT_FOUND"
          "Room does not exist or has expired")])) ∧
    (∀ room, c.roomId = none →
      mapGet st.rooms (strToUpper roomIdArg) = some room →
      2 ≤ room.clients.length →
      handleJoinRoom st cid roomIdArg =
        (st, [(cid, ServerMessage.error "ROOM_FULL"
          "Room already has two participants")])) ∧
    (∀ room m cm, c.roomId = none →
      mapGet st.rooms (strToUpper roomIdArg) = some room →
      room.clients = [m] → m ≠ cid → room.id = strToUpper roomIdArg →
      mapGet st.clients m = some cm →
      handleJoinRoom st cid roomIdArg =
        ({ clients := mapSet st.clients cid { roomId := some room.id },
           rooms := mapSet st.rooms (strToUpper roomIdArg)
             { room with clients := setAdd room.clients cid } },
         [(cid, ServerMessage.roomJoined room.id false),
          (m, ServerMessage.peerJoined)])) := by
  refine ⟨?_, ?_, ?_, ?_⟩
  · intro r hr
    simp [handleJoinRoom, hc, hr, sendErr, sendTo]
  · intro hr hn
    simp [handleJoinRoom, hc, hr, hn, sendErr, sendTo]
  · intro room hr hs hfull
    simp [handleJoinRoom, hc, hr, hs, hfull, sendErr, sendTo]
  · intro room m cm hr hs hm hne hid hcm
    have hlen : ¬(2 ≤ room.clients.length) := by rw [hm]; simp
    have hadd : setAdd room.clients cid = [m, cid] := by
      rw [hm]
      simp [setAdd, Ne.symm hne]
    simp only [handleJoinRoom, hc, hr, hs, if_neg hlen]
    rw [hadd]
    have hroomkey : mapGet (mapSet st.rooms (strToUpper roomIdArg)
        { room with clients := [m, cid] }) room.id =
        some { room with clients := [m, cid] } := by
      rw [hid]
      exact mapGet_mapSet_self _ _ _
    have hfind : List.find? (fun id => id != cid) [m, cid] = some m := by
      have hb : (m != cid) = true := by simp [hne]
      simp [List.find?, hb]
    have hjoiner : mapGet (mapSet st.clients cid { roomId := some room.id })
        cid = some { roomId := some room.id } := mapGet_mapSet_self _ _ _
    have hpeer : mapGet (mapSet st.clients cid { roomId := some room.id }) m =
        some cm := by
      rw [mapGet_mapSet_ne _ _ _ _ hne]
      exact hcm
    simp [getPeerInRoom, hroomkey, hfind, sendTo, hjoiner, hpeer]

theorem c5_join_room_witness :
    handleJoinRoom
      ⟨[("A", ⟨some "ROOM01"⟩), ("B", ⟨none⟩)],
        [("ROOM01", ⟨"ROOM01", ["A"], "A"⟩)]⟩ "B" "room01" =
      ({ clients := mapSet [("A", ⟨some "ROOM01"⟩), ("B", ⟨none⟩)] "B"
           { roomId := some "ROOM01" },
         rooms := mapSet [("ROOM01", ⟨"ROOM01", ["A"], "A"⟩)]
           (strToUpper "room01")
           { id := "ROOM01", clients := setAdd ["A"] "B", creatorId := "A" } },
       [("B", ServerMessage.roomJoined "ROOM01" false),
        ("A", ServerMessage.peerJoined)]) :=
  (c5_join_room ⟨[("A", ⟨some "ROOM01"⟩), ("B", ⟨none⟩)],
      [("ROOM01", ⟨"ROOM01", ["A"], "A"⟩)]⟩ "B" "room01" ⟨none⟩ rfl).2.2.2
    ⟨"ROOM01", ["A"], "A"⟩ "A" ⟨some "ROOM01"⟩ rfl rfl rfl (by decide) rfl rfl

/-! ## Claim C6: relay of offer / answer / ice-candidate -/

theorem getPeerInRoom_ne (st : ServerState) (rid cid pid : String)
    (h : getPeerInRoom st rid cid = some pid) : pid ≠ cid := by
  unfold getPeerInRoom at h
  cases hg : mapGet st.rooms rid with
  | none => rw [hg] at h; exact absurd h (by simp)
  | some room =>
    rw [hg] at h
    have := List.find?_some h
    simpa using this

/-- Claim C6: an inbound offer, answer or ice-candidate is answered with
NOT_IN_ROOM when the sender is in no room, NO_PEER when the sender is alone
in its room, and otherwise relayed — with the type discriminator and every
payload field preserved verbatim (`toRelay`) — to the unique other occupant,
with nothing sent back to the sender and the state unchanged. -/
theorem c6_relay (st : ServerState) (cid genId : String) (msg : ClientMessage)
    (out : ServerMessage) (c : Client)
    (hrel : toRelay msg = some out)
    (hc : mapGet st.clients cid = some c) :
    ((c.roomId = none →
      handleMessage st cid genId msg =
        (st, [(cid, ServerMessage.error "NOT_IN_ROOM"
          "Join a room before sending WebRTC messages")])) ∧
     (∀ rid, c.roomId = some rid → getPeerInRoom st rid cid = none →
      handleMessage st cid genId msg =
        (st, [(cid, ServerMessage.error "NO_PEER"
          "No peer connected to relay message to")])) ∧
     (∀ rid pid, c.roomId = some rid → getPeerInRoom st rid cid = some pid →
      (mapGet st.clients pid).isSome = true →
      handleMessage st cid genId msg = (st, [(pid, out)]) ∧ pid ≠ cid)) ∧
    (∀ sdp, toRelay (ClientMessage.offer sdp) =
      some (ServerMessage.offer sdp)) ∧
    (∀ sdp, toRelay (ClientMessage.answer sdp) =
      some (ServerMessage.answer sdp)) ∧
    (∀ ca mid idx, toRelay (ClientMessage.iceCandidate ca mid idx) =
      some (ServerMessage.iceCandidate ca mid idx)) := by
  refine ⟨⟨?_, ?_, ?_⟩, fun _ => rfl, fun _ => rfl, fun _ _ _ => rfl⟩
  · intro hr
    cases msg <;>
      first
        | (simp only [toRelay] at hrel
           injection hrel with hout
           subst hout
           simp [handleMessage, relayToPeer, hc, hr, sendErr, sendTo])
        | simp [toRelay] at hrel
  · intro rid hr hnp
    cases msg <;>
      first
        | (simp only [toRelay] at hrel
           injection hrel with hout
           subst hout
           simp [handleMessage, relayToPeer, hc, hr, hnp, sendErr, sendTo])
        | simp [toRelay] at hrel
  · intro rid pid hr hp hpc
    refine ⟨?_, getPeerInRoom_ne st rid cid pid hp⟩
    have hsend : sendTo st pid out = [(pid, out)] := by
      unfold sendTo
      cases hg : mapGet st.clients pid with
      | none => rw [hg] at hpc; exact absurd hpc (by simp)
      | some _ => rfl
    cases msg <;>
      first
        | (simp only [toRelay] at hrel
           injection hrel with hout
           subst hout
           simp [handleMessage, relayToPeer, hc, hr, hp, hsend])
        | simp [toRelay] at hrel

/-! ## Claim C2: IV discipline of a single sender -/

/-- The encryption sequence of one sender: `encryptChunk` applied to each
    plaintext in order, threading the manager state. -/
def encryptMany (E : Cipher) : EncryptionManager → List (List Nat) →
    Option (List (List Nat × List Nat) × EncryptionManager)
  | m, [] => some ([], m)
  | m, p :: ps =>
    match m.encryptChunk E p with
    | none => none
    | some (ct, iv, m') =>
      match encryptMany E m' ps with
      | none => none
      | some (res, mf) => some ((ct, iv) :: res, mf)

theorem encryptMany_spec (E : Cipher) (k sid : List Nat) :
    ∀ (ps : List (List Nat)) (c0 : Nat),
      ∃ res, encryptMany E ⟨some k, sid, c0⟩ ps =
          some (res, ⟨some k, sid, c0 + ps.length⟩) ∧
        res.map Prod.snd =
          (List.range ps.length).map (fun i => sid ++ beBytes 8 (c0 + i)) := by
  intro ps
  induction ps with
  | nil => intro c0; exact ⟨[], by simp [encryptMany], by simp⟩
  | cons p ps ih =>
    intro c0
    obtain ⟨res, hres, hmap⟩ := ih (c0 + 1)
    refine ⟨(E k (sid ++ beBytes 8 c0) p, sid ++ beBytes 8 c0) :: res, ?_, ?_⟩
    · simp only [encryptMany, EncryptionManager.encryptChunk,
        EncryptionManager.generateIV, hres, List.length_cons]
      rw [show c0 + (ps.length + 1) = c0 + 1 + ps.length from by omega]
    · simp only [List.map_cons, hmap, List.length_cons, List.range_succ_eq_map,
        List.map_map]
      congr 1
      apply List.map_congr_left
      intro i _
      simp only [Function.comp_apply]
      congr 2
      omega

/-- Claim C2: for one sender holding a key, every IV is the 4-byte session
prefix followed by the counter rendered as a big-endian `uint64`; the counter
starts at 0 at construction, is preserved by key generation and import, is
incremented by exactly 1 on each encryption, and is only zeroed by `reset`,
which also drops the key; hence, as long as fewer than `2 ^ 64` encryptions
are performed under the key, no IV (and so no (key, IV) pair) recurs. -/
theorem c2_iv_discipline (E : Cipher) (k sid : List Nat)
    (ps : List (List Nat)) (res : List (List Nat × List Nat))
    (mf : EncryptionManager)
    (hrun : encryptMany E ⟨some k, sid, 0⟩ ps = some (res, mf)) :
    (mf.counter = ps.length ∧ mf.sessionId = sid ∧ mf.key = some k ∧
     res.map Prod.snd =
       (List.range ps.length).map (fun i => sid ++ beBytes 8 i)) ∧
    (∀ (m : EncryptionManager) (data ct iv : List Nat)
      (m' : EncryptionManager),
      EncryptionManager.encryptChunk E m data = some (ct, iv, m') →
      m'.counter = m.counter + 1 ∧ m'.sessionId = m.sessionId ∧
      m'.key = m.key ∧ iv = m.sessionId ++ beBytes 8 m.counter) ∧
    (EncryptionManager.mk0 sid).counter = 0 ∧
    (∀ kk : List Nat,
      ((EncryptionManager.mk0 sid).generateKey kk).2 = ⟨some kk, sid, 0⟩ ∧
      (EncryptionManager.mk0 sid).importKey kk = ⟨some kk, sid, 0⟩ ∧
      (∀ m : EncryptionManager, (m.generateKey kk).2.counter = m.counter ∧
        (m.importKey kk).counter = m.counter)) ∧
    (∀ (m : EncryptionManager) (sid2 : List Nat), (m.reset sid2).key = none) ∧
    (∀ c1 c2 : Nat, c1 < 2 ^ 64 → c2 < 2 ^ 64 → c1 ≠ c2 →
      sid ++ beBytes 8 c1 ≠ sid ++ beBytes 8 c2) := by
  refine ⟨?_, ?_, rfl, fun kk => ⟨rfl, rfl, fun m => ⟨rfl, rfl⟩⟩,
    fun m sid2 => rfl, ?_⟩
  · obtain ⟨res', hres', hmap'⟩ := encryptMany_spec E k sid ps 0
    rw [hrun] at hres'
    simp only [Option.some.injEq, Prod.mk.injEq] at hres'
    obtain ⟨h1, h2⟩ := hres'
    subst h1
    rw [h2]
    refine ⟨by simp, rfl, rfl, ?_⟩
    rw [hmap']
    apply List.map_congr_left
    intro i _
    rw [Nat.zero_add]
  · intro m data ct iv m' henc
    unfold EncryptionManager.encryptChunk EncryptionManager.generateIV at henc
    cases hk : m.key with
    | none => rw [hk] at henc; exact absurd henc (by simp)
    | some kk =>
      rw [hk] at henc
      simp only [Option.some.injEq, Prod.mk.injEq] at henc
      obtain ⟨h1, h2, h3⟩ := henc
      subst h2
      subst h3
      exact ⟨rfl, rfl, rfl, rfl⟩
  · intro c1 c2 h1 h2 hne heq
    have := List.append_cancel_left heq
    exact hne (beBytes_inj (by norm_num at h1 ⊢; omega)
      (by norm_num at h2 ⊢; omega) this)

theorem c2_iv_discipline_witness :
    ((⟨some [5], [1, 2, 3, 4], 2⟩ : EncryptionManager).counter = 2 ∧
     (⟨some [5], [1, 2, 3, 4], 2⟩ : EncryptionManager).sessionId = [1, 2, 3, 4] ∧
     (⟨some [5], [1, 2, 3, 4], 2⟩ : EncryptionManager).key = some [5] ∧
     ([(([10] : List Nat), [1, 2, 3, 4] ++ beBytes 8 0),
       (([20] : List Nat), [1, 2, 3, 4] ++ beBytes 8 1)].map Prod.snd =
       (List.range 2).map (fun i => [1, 2, 3, 4] ++ beBytes 8 i))) ∧
    (∀ (m : EncryptionManager) (data ct iv : List Nat)
      (m' : EncryptionManager),
      EncryptionManager.encryptChunk (fun _ _ p => p) m data =
        some (ct, iv, m') →
      m'.counter = m.counter + 1 ∧ m'.sessionId = m.sessionId ∧
      m'.key = m.key ∧ iv = m.sessionId ++ beBytes 8 m.counter) ∧
    (EncryptionManager.mk0 [1, 2, 3, 4]).counter = 0 ∧
    (∀ kk : List Nat,
      ((EncryptionManager.mk0 [1, 2, 3, 4]).generateKey kk).2 =
        ⟨some kk, [1, 2, 3, 4], 0⟩ ∧
      (EncryptionManager.mk0 [1, 2, 3, 4]).importKey kk =
        ⟨some kk, [1, 2, 3, 4], 0⟩ ∧
      (∀ m : EncryptionManager, (m.generateKey kk).2.counter = m.counter ∧
        (m.importKey kk).counter = m.counter)) ∧
    (∀ (m : EncryptionManager) (sid2 : List Nat), (m.reset sid2).key = none) ∧
    (∀ c1 c2 : Nat, c1 < 2 ^ 64 → c2 < 2 ^ 64 → c1 ≠ c2 →
      [1, 2, 3, 4] ++ beBytes 8 c1 ≠ [1, 2, 3, 4] ++ beBytes 8 c2) :=
  c2_iv_discipline (fun _ _ p => p) [5] [1, 2, 3, 4] [[10], [20]]
    [([10], [1, 2, 3, 4] ++ beBytes 8 0), ([20], [1, 2, 3, 4] ++ beBytes 8 1)]
    ⟨some [5], [1, 2, 3, 4], 2⟩ (by decide)

/-! ## Claim C1: byte-for-byte round trip -/

/-- The receiver's chunk array after the first `t` chunks of a file of `n`
    chunks have been stored. -/
def stageChunks (content : List Nat) (n t : Nat) : List (Option (List Nat)) :=
  (List.range n).map (fun i => if i < t then some (chunkAt content i) else none)

/-- The reassembly record after `t` chunks. -/
def mdStage (fid content : List Nat) (n t : Nat) : FileMetadata :=
  { id := fid, size := content.length, totalChunks := n,
    receivedChunks := stageChunks content n t,
    bytesReceived := ((List.range t).map (fun i => (chunkAt content i).length)).sum }

/-- The receiver state after `t` chunks of the active receive. -/
def stStage (fid content : List Nat) (n t : Nat) (encM : EncryptionManager) :
    ReceiverState :=
  { receivingFiles := [(fid, mdStage fid content n t)],
    currentReceiveFileId := some fid,
    enc := encM }

theorem jsArraySet_lt {α : Type} (l : List (Option α)) (i : Nat) (v : α)
    (h : i < l.length) : jsArraySet l i v = l.set i (some v) := by
  unfold jsArraySet
  rw [if_pos h]

theorem stageChunks_set (content : List Nat) (n t : Nat) (_ht : t < n) :
    (stageChunks content n t).set t (some (chunkAt content t)) =
      stageChunks content n (t + 1) := by
  unfold stageChunks
  apply List.ext_getElem
  · simp
  · intro j h1 h2
    simp only [List.getElem_set, List.getElem_map, List.getElem_range]
    by_cases hj : t = j
    · subst hj
      simp
    · rw [if_neg hj]
      by_cases hjt : j < t
      · rw [if_pos hjt, if_pos (by omega)]
      · rw [if_neg hjt, if_neg (by omega)]

theorem sum_map_range_succ (f : Nat → Nat) (t : Nat) :
    ((List.range (t + 1)).map f).sum = ((List.range t).map f).sum + f t := by
  rw [List.range_succ]
  simp

theorem receiver_chunk_step (E : Cipher) (D : Decipher)
    (k sid fid content : List Nat) (c0 : Nat) (encM : EncryptionManager)
    (n t : Nat)
    (hkey : encM.key = some k)
    (hD : ∀ iv p, D k iv (E k iv p) = some p)
    (hfid : fid.length < 256)
    (hsid : sid.length = SESSION_ID_LENGTH)
    (hn : n ≤ 2 ^ 32) (ht : t < n) :
    handleFileChunkR D (stStage fid content n t encM)
      (encodeEncryptedChunk t
        (E k (sid ++ beBytes 8 (c0 + t)) (chunkAt content t))
        (sid ++ beBytes 8 (c0 + t)) fid) =
      stStage fid content n (t + 1) encM := by
  have hivlen : (sid ++ beBytes 8 (c0 + t)).length < 256 := by
    simp [beBytes_length, hsid, SESSION_ID_LENGTH]
  have hdec := decode_encode_chunk t
    (E k (sid ++ beBytes 8 (c0 + t)) (chunkAt content t))
    (sid ++ beBytes 8 (c0 + t)) fid (by omega) hfid hivlen
  have hget : mapGet (stStage fid content n t encM).receivingFiles fid =
      some (mdStage fid content n t) := by
    simp [stStage, mapGet]
  have hdecr : (stStage fid content n t encM).enc.decryptChunk D
      (E k (sid ++ beBytes 8 (c0 + t)) (chunkAt content t))
      (sid ++ beBytes 8 (c0 + t)) = some (chunkAt content t) := by
    unfold EncryptionManager.decryptChunk
    simp only [stStage, hkey]
    exact hD _ _
  unfold handleFileChunkR
  rw [hdec]
  dsimp only
  rw [hget]
  dsimp only
  rw [hdecr]
  dsimp only
  have hlen : (mdStage fid content n t).receivedChunks.length = n := by
    simp [mdStage, stageChunks]
  have harr : jsArraySet (mdStage fid content n t).receivedChunks t
      (chunkAt content t) = stageChunks content n (t + 1) := by
    rw [jsArraySet_lt _ _ _ (by rw [hlen]; exact ht)]
    show (stageChunks content n t).set t (some (chunkAt content t)) = _
    exact stageChunks_set content n t ht
  have hbytes : (mdStage fid content n t).bytesReceived +
      (chunkAt content t).length =
      ((List.range (t + 1)).map (fun i => (chunkAt content i).length)).sum := by
    rw [sum_map_range_succ]
    rfl
  simp only [harr, hbytes]
  unfold stStage mapSet
  simp [mapGet, mdStage]

theorem receiver_chunks_fold (E : Cipher) (D : Decipher)
    (k sid fid content : List Nat) (c0 : Nat) (encM : EncryptionManager)
    (n : Nat)
    (hkey : encM.key = some k)
    (hD : ∀ iv p, D k iv (E k iv p) = some p)
    (hfid : fid.length < 256)
    (hsid : sid.length = SESSION_ID_LENGTH)
    (hn : n ≤ 2 ^ 32) :
    ∀ (r t : Nat), t + r = n →
      runReceiver D (stStage fid content n t encM)
        (((List.range' t r).map (fun j => Msg.fileChunk j fid
          (sid ++ beBytes 8 (c0 + j))
          (E k (sid ++ beBytes 8 (c0 + j)) (chunkAt content j)))) ++
          [Msg.fileComplete]) =
        (⟨[], none, encM⟩,
         [(((mdStage fid content n n).receivedChunks.filterMap id).flatten,
           mdStage fid content n n)]) := by
  intro r
  induction r with
  | zero =>
    intro t htn
    have ht : t = n := by omega
    subst ht
    simp only [List.range'_zero, List.map_nil, List.nil_append]
    simp only [runReceiver, handleFileCompleteR, stStage]
    simp [mapGet, mapDelete]
  | succ r ih =>
    intro t htn
    rw [List.range'_succ]
    simp only [List.map_cons, List.cons_append, runReceiver]
    rw [receiver_chunk_step E D k sid fid content c0 encM n t hkey hD hfid hsid
      hn (by omega)]
    simp only [List.append_eq]
    rw [ih (t + 1) (by omega)]
    simp

theorem sendChunksLoop_spec (E : Cipher) (qf : QueuedFile) (k sid : List Nat) :
    ∀ (r idx c0 : Nat),
      sendChunksLoop E qf ⟨some k, sid, c0⟩ idx r =
        ((List.range r).map (fun j => Msg.fileChunk (idx + j) qf.info.id
          (sid ++ beBytes 8 (c0 + j))
          (E k (sid ++ beBytes 8 (c0 + j)) (chunkAt qf.content (idx + j)))) ++
          [Msg.fileComplete],
         ⟨some k, sid, c0 + r⟩) := by
  intro r
  induction r with
  | zero => intro idx c0; simp [sendChunksLoop]
  | succ r ih =>
    intro idx c0
    simp only [sendChunksLoop, EncryptionManager.encryptChunk,
      EncryptionManager.generateIV]
    rw [ih (idx + 1) (c0 + 1)]
    rw [List.range_succ_eq_map]
    simp only [List.map_cons, List.map_map, List.cons_append, Nat.add_zero]
    have hmaps : (List.range r).map
        (fun j => Msg.fileChunk (idx + 1 + j) qf.info.id
          (sid ++ beBytes 8 (c0 + 1 + j))
          (E k (sid ++ beBytes 8 (c0 + 1 + j)) (chunkAt qf.content (idx + 1 + j)))) =
        (List.range r).map
        ((fun j => Msg.fileChunk (idx + j) qf.info.id
          (sid ++ beBytes 8 (c0 + j))
          (E k (sid ++ beBytes 8 (c0 + j)) (chunkAt qf.content (idx + j)))) ∘
          Nat.succ) := by
      apply List.map_congr_left
      intro j _
      simp only [Function.comp_apply, Nat.succ_eq_add_one]
      have e1 : idx + (j + 1) = idx + 1 + j := by omega
      have e2 : c0 + (j + 1) = c0 + 1 + j := by omega
      rw [e1, e2]
    rw [hmaps]
    have ec : c0 + 1 + r = c0 + (r + 1) := by omega
    rw [ec]

/-- Claim C1: for every file accepted by the receiver and transferred without
a transport or decryption error (the AES-GCM cipher pair `E`/`D` round-trips,
every chunk message arrives, decodes and decrypts), the byte sequence
delivered to the receiving application — the concatenation, in chunk-index
order, of the decrypted chunks — equals the sender's input file
byte-for-byte. -/
theorem c1_roundtrip (E : Cipher) (D : Decipher) (k sid : List Nat) (c0 : Nat)
    (content fid : List Nat) (encM : EncryptionManager)
    (hkey : encM.key = some k)
    (hD : ∀ iv p, D k iv (E k iv p) = some p)
    (hfid : fid.length < 256)
    (hsid : sid.length = SESSION_ID_LENGTH)
    (htc : totalChunksOf content.length ≤ 2 ^ 32) :
    ((runReceiver D
      (handleFileInfoR ⟨[], none, encM⟩ (mkQueued content fid).info true).1
      (sendChunksFrom E ⟨some k, sid, c0⟩ (mkQueued content fid) 0).1).2.map
      Prod.fst) = [content] := by
  set n := totalChunksOf content.length with hndef
  have hrep : List.replicate n (none : Option (List Nat)) =
      stageChunks content n 0 := by
    apply List.ext_getElem
    · simp [stageChunks]
    · intro j h1 h2
      simp [stageChunks]
  have hinit : (handleFileInfoR ⟨[], none, encM⟩
      (mkQueued content fid).info true).1 = stStage fid content n 0 encM := by
    unfold handleFileInfoR mkQueued
    dsimp only
    rw [if_pos rfl]
    simp [mapSet, mapGet, stStage, mdStage, hrep, ← hndef]
  have hloop := sendChunksLoop_spec E (mkQueued content fid) k sid n 0 c0
  have hmsgs : (sendChunksFrom E ⟨some k, sid, c0⟩ (mkQueued content fid) 0).1 =
      ((List.range' 0 n).map (fun j => Msg.fileChunk j fid
        (sid ++ beBytes 8 (c0 + j))
        (E k (sid ++ beBytes 8 (c0 + j)) (chunkAt content j)))) ++
        [Msg.fileComplete] := by
    unfold sendChunksFrom
    rw [show (mkQueued content fid).info.totalChunks - 0 = n from
      by simp [mkQueued, ← hndef]]
    rw [hloop]
    dsimp only
    rw [← List.range_eq_range']
    congr 1
    apply List.map_congr_left
    intro j _
    rw [Nat.zero_add]
    rfl
  rw [hinit, hmsgs]
  rw [receiver_chunks_fold E D k sid fid content c0 encM n hkey hD hfid hsid
    htc n 0 (by omega)]
  simp only [List.map_cons, List.map_nil]
  have hfull : (mdStage fid content n n).receivedChunks =
      (List.range n).map (fun i => some (chunkAt content i)) := by
    unfold mdStage stageChunks
    dsimp only
    apply List.map_congr_left
    intro i hi
    rw [if_pos (List.mem_range.mp hi)]
  rw [hfull, List.filterMap_map]
  rw [show (id ∘ fun i => some (chunkAt content i)) =
    some ∘ (chunkAt content) from rfl]
  rw [List.filterMap_eq_map]
  have hflat := senderChunks_flatten content
  unfold senderChunks at hflat
  rw [← hndef] at hflat
  rw [hflat]

theorem c1_roundtrip_witness :
    ((runReceiver (fun _ _ c => some c)
      (handleFileInfoR ⟨[], none, ⟨some [9], [], 0⟩⟩
        (mkQueued [10, 20, 30] [65]).info true).1
      (sendChunksFrom (fun _ _ p => p) ⟨some [9], [3, 1, 4, 1], 0⟩
        (mkQueued [10, 20, 30] [65]) 0).1).2.map Prod.fst) = [[10, 20, 30]] :=
  c1_roundtrip (fun _ _ p => p) (fun _ _ c => some c) [9] [3, 1, 4, 1] 0
    [10, 20, 30] [65] ⟨some [9], [], 0⟩ rfl (fun _ _ => rfl) (by norm_num)
    rfl (by norm_num [totalChunksOf, CHUNK_SIZE])

/-! ## Claim C9: the IVs of a single file in a batch -/

theorem ivsOf_chunks (r idx : Nat) (fid : List Nat) (ivf ctf : Nat → List Nat) :
    ivsOf ((List.range r).map
      (fun j => Msg.fileChunk (idx + j) fid (ivf j) (ctf j)) ++
      [Msg.fileComplete]) = (List.range r).map ivf := by
  unfold ivsOf
  rw [List.filterMap_append, List.filterMap_map]
  have hfun : ((fun m => match m with
      | Msg.fileChunk _ _ iv _ => some iv
      | _ => none) ∘ (fun j => Msg.fileChunk (idx + j) fid (ivf j) (ctf j))) =
      some ∘ ivf := rfl
  rw [hfun, List.filterMap_eq_map]
  simp

theorem sendBatch_ivs (E : Cipher) (k sid : List Nat) :
    ∀ (qs : List QueuedFile) (c0 i : Nat),
      ((sendBatch E ⟨some k, sid, c0⟩ qs).1.map ivsOf)[i]? =
        qs[i]?.map (fun qf => (List.range qf.info.totalChunks).map
          (fun j => sid ++ beBytes 8
            (c0 + ((qs.take i).map (fun q => q.info.totalChunks)).sum + j))) := by
  intro qs
  induction qs with
  | nil => intro c0 i; simp [sendBatch]
  | cons qf rest ih =>
    intro c0 i
    have hloop := sendChunksLoop_spec E qf k sid qf.info.totalChunks 0 c0
    simp only [sendBatch, sendChunksFrom, Nat.sub_zero, hloop]
    have hhead : ivsOf (Msg.fileInfo qf.info ::
        ((List.range qf.info.totalChunks).map
          (fun j => Msg.fileChunk (0 + j) qf.info.id (sid ++ beBytes 8 (c0 + j))
            (E k (sid ++ beBytes 8 (c0 + j)) (chunkAt qf.content (0 + j)))) ++
          [Msg.fileComplete])) =
        (List.range qf.info.totalChunks).map (fun j => sid ++ beBytes 8 (c0 + j)) := by
      have hiv := ivsOf_chunks qf.info.totalChunks 0 qf.info.id
        (fun j => sid ++ beBytes 8 (c0 + j))
        (fun j => E k (sid ++ beBytes 8 (c0 + j)) (chunkAt qf.content (0 + j)))
      unfold ivsOf at hiv ⊢
      rw [List.filterMap_cons]
      exact hiv
    cases i with
    | zero =>
      simp only [List.map_cons, List.getElem?_cons_zero, Option.map_some, hhead]
      rfl
    | succ i =>
      simp only [List.map_cons, List.getElem?_cons_succ]
      rw [ih (c0 + qf.info.totalChunks) i]
      cases hre : rest[i]? with
      | none => rfl
      | some qf' =>
        simp only [Option.map_some', Option.some.injEq]
        apply List.map_congr_left
        intro j _
        simp only [List.take_succ_cons, List.map_cons, List.sum_cons]
        congr 2
        omega

/-- Claim C9, amended: for every sender and every file in a batch, the IVs
used for that file's chunks form a contiguous run
`session_prefix‖c, …, session_prefix‖(c+k−1)` whose starting counter `c` is
the total number of chunks of the files sent before it (the counter is never
reset between files); only the FIRST file of a sender's lifetime starts at
counter 0.  Each counter value below `2 ^ 64` yields a distinct IV, so no
value is reused. -/
theorem c9_file_iv_ranges (E : Cipher) (k sid : List Nat)
    (files : List (List Nat × List Nat)) (i : Nat) :
    (((sendBatch E ⟨some k, sid, 0⟩
        (files.map (fun p => mkQueued p.1 p.2))).1.map ivsOf)[i]? =
      (files.map (fun p => mkQueued p.1 p.2))[i]?.map (fun qf =>
        (List.range qf.info.totalChunks).map (fun j => sid ++ beBytes 8
          (((((files.map (fun p => mkQueued p.1 p.2)).take i).map
            (fun q => q.info.totalChunks)).sum) + j)))) ∧
    (((((files.map (fun p => mkQueued p.1 p.2)).take 0).map
      (fun q => q.info.totalChunks)).sum) = 0) ∧
    (∀ c1 c2 : Nat, c1 < 2 ^ 64 → c2 < 2 ^ 64 → c1 ≠ c2 →
      sid ++ beBytes 8 c1 ≠ sid ++ beBytes 8 c2) := by
  refine ⟨?_, by simp, ?_⟩
  · have := sendBatch_ivs E k sid (files.map (fun p => mkQueued p.1 p.2)) 0 i
    simpa using this
  · intro c1 c2 h1 h2 hne heq
    have := List.append_cancel_left heq
    exact hne (beBytes_inj (by norm_num at h1 ⊢; omega)
      (by norm_num at h2 ⊢; omega) this)

theorem c9_file_iv_ranges_witness :
    [1, 2, 3, 4] ++ beBytes 8 0 ≠ [1, 2, 3, 4] ++ beBytes 8 1 :=
  (c9_file_iv_ranges (fun _ _ p => p) [] [1, 2, 3, 4] [] 0).2.2 0 1
    (by norm_num) (by norm_num) (by norm_num)

/-- Claim C9 as frozen is false: in a batch of two one-chunk files sent by
one sender, the second file's single IV carries counter value 1 (the counter
is not reset between files), so the second file's IV set is NOT a prefix of
`session_prefix‖0, session_prefix‖1, …` — it does not contain the
counter-0 IV although it is nonempty. -/
theorem c9_counterexample :
    ((sendBatch (fun _ _ p => p) ⟨some [], [0, 0, 0, 0], 0⟩
        [mkQueued [7] [1], mkQueued [9] [2]]).1.map ivsOf)[1]? =
      some [[0, 0, 0, 0] ++ beBytes 8 1] ∧
    ([[0, 0, 0, 0] ++ beBytes 8 1] : List (List Nat)) ≠
      [[0, 0, 0, 0] ++ beBytes 8 0] := by
  constructor
  · rfl
  · decide

theorem c6_relay_witness :
    handleMessage
      ⟨[("A", ⟨some "R"⟩), ("B", ⟨some "R"⟩)], [("R", ⟨"R", ["A", "B"], "A"⟩)]⟩
      "A" "G" (ClientMessage.offer "sdp1") =
      (⟨[("A", ⟨some "R"⟩), ("B", ⟨some "R"⟩)], [("R", ⟨"R", ["A", "B"], "A"⟩)]⟩,
       [("B", ServerMessage.offer "sdp1")]) ∧ "B" ≠ "A" :=
  ((c6_relay ⟨[("A", ⟨some "R"⟩), ("B", ⟨some "R"⟩)],
      [("R", ⟨"R", ["A", "B"], "A"⟩)]⟩ "A" "G" (ClientMessage.offer "sdp1")
      (ServerMessage.offer "sdp1") ⟨some "R"⟩ rfl rfl).1.2.2 "R" "B" rfl rfl rfl)

end P2PShare
